import Mathlib

/-!
A verification development for the `pepe` portable multi-language
preprocessor (`pepe/__init__.py`).

The core engine `preprocess` is shallowly embedded below.  Conventions of
the embedding:

* Python machine values that can live in the define table are modelled by
  `Value` (string / int / bool / None); the engine only ever inspects
  truthiness, string conversion and equality of these values.
* The Python dict `defines` is modelled as an association list with
  Python's update-in-place / append-if-new assignment semantics
  (`dictSet`), deletion (`dictDel`) and lookup (`dictGet`).  Key order of
  the association list stands in for the dict's iteration order.
* File I/O is abstracted into an `OS` record: `readLines` plays
  `open(f).readlines()` (with lines already split, newlines stripped;
  `none` models a missing file, where Python raises `IOError`), and
  `dirname`/`joinPath`/`normpath`/`abspath` play the corresponding
  `os.path` functions.  Output written to `fout` is accumulated as a list
  of written lines (`fout.write(line)` for a content line, `fout.write` of
  a newline for a kept blank line, modelled as `""`).
* The statement-recognition regexes built from the content type's comment
  delimiters (source lines 338-373) are abstracted into a line classifier
  `matchStmt : String -> Option Stmt`; a returned `Stmt` carries exactly
  the fields the regex groups carry.  Content-type resolution itself
  (`ContentTypesRegistry`) is modelled separately below.
* Python `eval` is abstracted into an `oracle` for `#if`-style expression
  evaluation (given the expression text and the define table, as in the
  source's `eval(expr, {'defined': ...}, defines)`), and an `evalLiteral`
  function for the opportunistic `eval(val, {}, {})` of a `#define` value
  (`none` models "raised, keep raw string").
* The conditional-state stack `states` is kept with its TOP at the HEAD of
  the list (Python appends/pops at the end); `states[-2]` is therefore the
  second element.
* The structure `PPErr` mirrors the distinct `raise` sites of the source;
  `PPErr.pyMessage` reproduces the exact message strings built there.
  Python exceptions that are not `PreprocessorError` (`KeyError` from
  `defines[var]`, `IOError`, attribute/type errors from joining a non-str
  include value) get their own constructors.
* The field `evalLog` is a ghost observation: every call to `_evaluate`
  appends the expression together with the define table passed to it and,
  as ground truth, the file and 1-based line number of the directive being
  evaluated.  No control flow depends on it; it exists only to state
  invariants about the evaluation context.
* Recursion through `#include` is driven by `fuel`; the source recurses
  without a bound and relies on the recursion guard, so every claim below
  is stated for a sufficiently large / arbitrary `fuel`, and `outOfFuel`
  is the artifact of making the recursion structural.
* `should_force_overwrite` and writing to a named output path only govern
  creation of the output sink (source lines 381-387) and are outside the
  modelled behaviour.
-/

namespace Pepe

/-- A Python value as storable in the define table. -/
inductive Value where
  | vStr (s : String)
  | vInt (n : Int)
  | vBool (b : Bool)
  | vNone
deriving DecidableEq

/-- Python `str()` of a `Value`, as used by the substitution pass. -/
def pyStr : Value → String
  | .vStr s => s
  | .vInt n => toString n
  | .vBool b => if b then "True" else "False"
  | .vNone => "None"

/-- Python truthiness of a `Value` (`if _evaluate(expr, defines):`). -/
def pyTruthy : Value → Bool
  | .vStr s => ¬ s.isEmpty
  | .vInt n => n ≠ 0
  | .vBool b => b
  | .vNone => false

/-- The define table: a Python dict modelled as an association list. -/
abbrev Defines := List (String × Value)

/-- Python dict lookup `d[k]` (as an `Option`; `none` is a `KeyError`). -/
def dictGet : Defines → String → Option Value
  | [], _ => none
  | (k', v) :: rest, k => if k' = k then some v else dictGet rest k

/-- Python dict assignment `d[k] = v`: overwrite in place, append if new. -/
def dictSet : Defines → String → Value → Defines
  | [], k, v => [(k, v)]
  | (k', v') :: rest, k, v =>
      if k' = k then (k, v) :: rest else (k', v') :: dictSet rest k v

/-- Python `del d[k]` with the source's `except KeyError: pass`. -/
def dictDel : Defines → String → Defines
  | [], _ => []
  | (k', v') :: rest, k => if k' = k then rest else (k', v') :: dictDel rest k

/-- Python dict membership `k in d` (also the injected `defined`). -/
def dictHasKey (d : Defines) (k : String) : Bool := (dictGet d k).isSome

/-- One round of Python `str.replace` scanning: replace every
non-overlapping occurrence of `old` (nonempty) left to right.  The `Nat`
argument is fuel bounded by the list length; each step consumes at least
one character. -/
def replChars (old new : List Char) : Nat → List Char → List Char
  | 0, s => s
  | _ + 1, [] => []
  | fuel + 1, c :: cs =>
      if old.isPrefixOf (c :: cs) then
        new ++ replChars old new fuel ((c :: cs).drop old.length)
      else
        c :: replChars old new fuel cs

/-- Python `s.replace(old, new)`.  An empty `old` inserts `new` at every
character boundary, as CPython does. -/
def strReplace (s old new : String) : String :=
  match old.data with
  | [] => String.mk (new.data ++ (s.data.map (fun c => c :: new.data)).flatten)
  | _ :: _ => String.mk (replChars old.data new.data s.data.length s.data)

/-- `reversed(sorted(defines, key=len))`: the define names ordered longest
first (Python's `sorted` is a stable sort by the key; a stable insertion
sort by the same key produces the same list; ties keep table order,
reversed). -/
def sortedNamesByLen (defines : Defines) : List String :=
  ((defines.map Prod.fst).insertionSort (fun a b => a.length ≤ b.length)).reverse

/-- The substitution pass over one emitted content line (source lines
539-543): sequentially `replace` each defined name, longest name first. -/
def substituteDefines (defines : Defines) (line : String) : String :=
  (sortedNamesByLen defines).foldl
    (fun sline name =>
      strReplace sline name (pyStr ((dictGet defines name).getD Value.vNone)))
    line

/-- A parsed preprocessor statement: the data carried by the named groups
of whichever statement regex matched the line. -/
inductive Stmt where
  | sIf (expr : String)
  | sElif (expr : String)
  | sIfdef (name : String)
  | sIfndef (name : String)
  | sElse
  | sEndif
  | sError (message : String)
  | sDefine (var : String) (val : Option String)
  | sUndef (var : String)
  | sIncludePath (fname : String)
  | sIncludeVar (var : String)
deriving DecidableEq

/-- The two section states (`SKIP, EMIT = range(2)`). -/
inductive Mode where
  | SKIP
  | EMIT
deriving DecidableEq

/-- One entry of the `states` stack:
`(emit-or-skip, have-emitted-in-this-if-block, have-seen-else)`. -/
structure BlockState where
  mode : Mode
  hasEmitted : Bool
  seenElse : Bool
deriving DecidableEq

/-- The distinct failure exits of `preprocess` and `_evaluate`.  The first
three `Option Value` style fields of the structural errors carry
`defines['__FILE__']` and `defines['__LINE__']` as looked up at the raise
site. -/
inductive PPErr where
  | recursiveInclude (infile : String)
  | includeNotFound (fname : String) (include_paths : List String)
  | evalError (msg : String) (file line : Option Value)
  | elifAfterElse (file line : Option Value) (srcLine : String)
  | elifWithoutIf (file line : Option Value) (srcLine : String)
  | elseAfterElse (file line : Option Value) (srcLine : String)
  | elseWithoutIf (file line : Option Value) (srcLine : String)
  | endifWithoutIf (file line : Option Value) (srcLine : String)
  | errorDirective (message : String) (file line : Option Value) (srcLine : String)
  | superfluousEndifLine (file line : Option Value)
  | unterminatedIf (file line : Option Value)
  | superfluousEndifEof (file line : Option Value)
  | keyErr (key : String)
  | typeErr
  | ioError (path : String)
  | outOfFuel
deriving DecidableEq

/-- Python `repr` of a list of strings (for the include-path message). -/
def pyReprStrList (l : List String) : String :=
  "[" ++ String.intercalate ", " (l.map (fun s => "'" ++ s ++ "'")) ++ "]"

/-- The exact `error_message` string the source builds at each raise site
(note the missing space in the `#endif` message, a literal-concatenation
slip in the source at lines 520-521). -/
def PPErr.pyMessage : PPErr → String
  | .recursiveInclude f => "detected recursive #include of '" ++ f ++ "'"
  | .includeNotFound f ps =>
      "could not find #include'd file \"" ++ f ++ "\" on include path: "
        ++ pyReprStrList ps
  | .evalError m _ _ => m
  | .elifAfterElse _ _ _ => "illegal #elif after #else in same #if block"
  | .elifWithoutIf _ _ _ => "#elif stmt without leading #if stmt"
  | .elseAfterElse _ _ _ => "illegal #else after #else in same #if block"
  | .elseWithoutIf _ _ _ => "#else stmt without leading #if stmt"
  | .endifWithoutIf _ _ _ => "#endif stmt without leading #ifstmt"
  | .errorDirective m _ _ _ => m
  | .superfluousEndifLine _ _ => "superfluous #endif before this line"
  | .unterminatedIf _ _ => "unterminated #if block"
  | .superfluousEndifEof _ _ => "superfluous #endif on or before this line"
  | .keyErr k => "KeyError: " ++ k
  | .typeErr => "TypeError"
  | .ioError p => "IOError: " ++ p
  | .outOfFuel => "out of fuel"

/-- Ghost record of one `_evaluate` call: the expression, the define table
handed to `eval`, and (ground truth from the engine) the file containing
the directive being evaluated and its 1-based line number. -/
structure EvalCall where
  expr : String
  env : Defines
  curFile : String
  curLine : Nat
deriving DecidableEq

/-- The abstracted `os` / filesystem interface. -/
structure OS where
  readLines : String → Option (List String)
  dirname : String → String
  joinPath : String → String → String
  normpath : String → String
  abspath : String → String

/-- Python `os.path.exists`, tied to the same filesystem as `readLines`. -/
def OS.exists (os : OS) (p : String) : Bool := (os.readLines p).isSome

/-- The fixed context of one `preprocess` invocation: the evaluation
oracle (Python `eval` with the `defined` builtin), the `#define`-value
literal evaluator, the compiled statement matcher for the (already
resolved) content type, the filesystem, and the option flags. -/
structure Env where
  oracle : String → Defines → Except String Value
  evalLiteral : String → Option Value
  matchStmt : String → Option Stmt
  os : OS
  include_paths : List String
  should_keep_lines : Bool
  should_substitute : Bool

/-- Does `hay` contain `pat` as a contiguous substring (Python `find`)? -/
def subSearch : List Char → List Char → Bool
  | _, [] => true
  | [], _ :: _ => false
  | c :: cs, p => if p.isPrefixOf (c :: cs) then true else subSearch cs p

/-- The message rewriting `_evaluate` performs on the exception text: the
quoting hint for `defined(FOO)` written without quotes, and the
invalid-syntax rewrite. -/
def mungeEvalMsg (expr msg : String) : String :=
  if msg.startsWith "name '" && msg.endsWith "' is not defined" then
    let varName := (msg.drop 6).dropRight 16
    if subSearch expr.data ("defined(" ++ varName ++ ")").data then
      msg ++ " (perhaps you want \"defined('" ++ varName ++ "')\" instead of \"defined("
        ++ varName ++ ")\")"
    else msg
  else if msg.startsWith "invalid syntax" then
    "invalid syntax: '" ++ expr ++ "'"
  else msg

/-- `_evaluate(expr, defines)`: run the oracle; on failure wrap the munged
message in a `PreprocessorError` carrying `defines['__FILE__']` and
`defines['__LINE__']`.  (The source's surrounding `except KeyError` in the
`#if` handler is unreachable here because lookups are total `Option`s.) -/
def pyEvaluate (env : Env) (expr : String) (defines : Defines) : Except PPErr Value :=
  match env.oracle expr defines with
  | .ok v => .ok v
  | .error msg =>
      .error (.evalError (mungeEvalMsg expr msg)
        (dictGet defines "__FILE__") (dictGet defines "__LINE__"))

/-- The mutable state threaded through the line loop of one file. -/
structure LoopState where
  defines : Defines
  states : List BlockState
  out : List String
  guard : List String
  evalLog : List EvalCall
deriving DecidableEq

/-- The value `preprocess` produces on success: the (possibly mutated)
define table, the accumulated output, the shared recursion-guard list and
the ghost evaluation log. -/
structure PPResult where
  defines : Defines
  output : List String
  guard : List String
  evalLog : List EvalCall
deriving DecidableEq

/-- The type of the recursive `preprocess` call as seen from the line
loop (input path, shared define table, output sink, recursion guard,
ghost log). -/
abbrev PP :=
  String → Defines → List String → List String → List EvalCall → Except PPErr PPResult

/-- Python `states and states[-1][0] == SKIP`. -/
def topSkip : List BlockState → Bool
  | ⟨Mode.SKIP, _, _⟩ :: _ => true
  | _ => false

/-- Shared handler for `#if` / `#ifdef` / `#ifndef` (source lines
457-476): inside a skipped section push `(SKIP,0,0)` without evaluating,
otherwise evaluate the condition and push accordingly. -/
def condStep (env : Env) (infile : String) (lineNum : Nat) (expr : String)
    (st : LoopState) : Except PPErr LoopState :=
  if topSkip st.states then
    .ok { st with states := ⟨Mode.SKIP, false, false⟩ :: st.states }
  else
    let st1 := { st with
      evalLog := st.evalLog ++ [(⟨expr, st.defines, infile, lineNum⟩ : EvalCall)] }
    match pyEvaluate env expr st.defines with
    | .error e => .error e
    | .ok v =>
        if pyTruthy v then
          .ok { st1 with states := ⟨Mode.EMIT, true, false⟩ :: st.states }
        else
          .ok { st1 with states := ⟨Mode.SKIP, false, false⟩ :: st.states }

/-- The include search (source lines 441-449): try the including file's
directory then each include path; first existing candidate wins. -/
def findIncl (os : OS) (f : String) : List String → Option String
  | [] => none
  | d :: ds =>
      let fname := os.normpath (os.joinPath d f)
      if os.exists fname then some fname else findIncl os f ds

/-- Resolve and recursively preprocess one `#include` target (source lines
441-456); the returned table, sink, guard and log replace the caller's. -/
def includeFile (env : Env) (pp : PP) (infile : String) (st : LoopState)
    (f : String) : Except PPErr LoopState :=
  match findIncl env.os f (env.os.dirname infile :: env.include_paths) with
  | none => .error (.includeNotFound f env.include_paths)
  | some fname =>
      match pp fname st.defines st.out st.guard st.evalLog with
      | .error e => .error e
      | .ok r =>
          .ok { defines := r.defines, states := st.states, out := r.output,
                guard := r.guard, evalLog := r.evalLog }

/-- Dispatch of one matched preprocessor statement (source lines 410-528),
acting on the loop state.  `line` is the raw text (carried into the
errors that reference it). -/
def execStmt (env : Env) (pp : PP) (infile : String) (lineNum : Nat)
    (line : String) (stmt : Stmt) (st : LoopState) : Except PPErr LoopState :=
  match stmt with
  | .sDefine var val =>
      if topSkip st.states then .ok st
      else
        let v := match val with
          | none => Value.vNone
          | some s => (env.evalLiteral s).getD (Value.vStr s)
        .ok { st with defines := dictSet st.defines var v }
  | .sUndef var =>
      if topSkip st.states then .ok st
      else .ok { st with defines := dictDel st.defines var }
  | .sIncludePath fname =>
      if topSkip st.states then .ok st
      else includeFile env pp infile st fname
  | .sIncludeVar var =>
      if topSkip st.states then .ok st
      else
        match dictGet st.defines var with
        | none => .error (.keyErr var)
        | some (Value.vStr f) => includeFile env pp infile st f
        | some _ => .error .typeErr
  | .sIf e => condStep env infile lineNum e st
  | .sIfdef n => condStep env infile lineNum ("defined('" ++ n ++ "')") st
  | .sIfndef n => condStep env infile lineNum ("not defined('" ++ n ++ "')") st
  | .sElif e =>
      match st.states with
      | [] =>
          .error (.elifWithoutIf (dictGet st.defines "__FILE__")
            (dictGet st.defines "__LINE__") line)
      | top :: rest =>
          if top.seenElse then
            .error (.elifAfterElse (dictGet st.defines "__FILE__")
              (dictGet st.defines "__LINE__") line)
          else if top.hasEmitted then
            .ok { st with states := ⟨Mode.SKIP, true, false⟩ :: rest }
          else if topSkip rest then
            .ok { st with states := ⟨Mode.SKIP, false, false⟩ :: rest }
          else
            let st1 := { st with
              evalLog := st.evalLog ++ [(⟨e, st.defines, infile, lineNum⟩ : EvalCall)] }
            match pyEvaluate env e st.defines with
            | .error er => .error er
            | .ok v =>
                if pyTruthy v then
                  .ok { st1 with states := ⟨Mode.EMIT, true, false⟩ :: rest }
                else
                  .ok { st1 with states := ⟨Mode.SKIP, false, false⟩ :: rest }
  | .sElse =>
      match st.states with
      | [] =>
          .error (.elseWithoutIf (dictGet st.defines "__FILE__")
            (dictGet st.defines "__LINE__") line)
      | top :: rest =>
          if top.seenElse then
            .error (.elseAfterElse (dictGet st.defines "__FILE__")
              (dictGet st.defines "__LINE__") line)
          else if top.hasEmitted then
            .ok { st with states := ⟨Mode.SKIP, true, true⟩ :: rest }
          else if topSkip rest then
            .ok { st with states := ⟨Mode.SKIP, false, true⟩ :: rest }
          else
            .ok { st with states := ⟨Mode.EMIT, true, true⟩ :: rest }
  | .sEndif =>
      match st.states with
      | [] =>
          .error (.endifWithoutIf (dictGet st.defines "__FILE__")
            (dictGet st.defines "__LINE__") line)
      | _ :: rest => .ok { st with states := rest }
  | .sError m =>
      if topSkip st.states then .ok st
      else
        .error (.errorDirective ("#error: " ++ m) (dictGet st.defines "__FILE__")
          (dictGet st.defines "__LINE__") line)

/-- The non-directive branch (source lines 532-553): emit (with optional
substitution), or keep a blank line, or drop the line; an empty stack here
is the source's `IndexError` turned `superfluous #endif` error. -/
def execContent (env : Env) (line : String) (st : LoopState) :
    Except PPErr LoopState :=
  match st.states with
  | [] =>
      .error (.superfluousEndifLine (dictGet st.defines "__FILE__")
        (dictGet st.defines "__LINE__"))
  | ⟨Mode.EMIT, _, _⟩ :: _ =>
      let sline := if env.should_substitute then substituteDefines st.defines line
                   else line
      .ok { st with out := st.out ++ [sline] }
  | ⟨Mode.SKIP, _, _⟩ :: _ =>
      if env.should_keep_lines then .ok { st with out := st.out ++ [""] }
      else .ok st

/-- After a directive line, `keepLines` writes one blank line (source
lines 530-531). -/
def klWrap (kl : Bool) (st : LoopState) : LoopState :=
  if kl then { st with out := st.out ++ [""] } else st

/-- One iteration of the line loop (source lines 395-553): bump
`__LINE__`, classify the line, dispatch. -/
def processLine (env : Env) (pp : PP) (infile : String) (lineNum : Nat)
    (line : String) (st : LoopState) : Except PPErr LoopState :=
  let st1 := { st with defines := dictSet st.defines "__LINE__" (Value.vInt lineNum) }
  match env.matchStmt line with
  | some stmt =>
      (execStmt env pp infile lineNum line stmt st1).map (klWrap env.should_keep_lines)
  | none => execContent env line st1

/-- The whole line loop; `lineNum` is the count of lines already
consumed. -/
def processLines (env : Env) (pp : PP) (infile : String) (lineNum : Nat)
    (lines : List String) (st : LoopState) : Except PPErr LoopState :=
  match lines with
  | [] => .ok st
  | line :: rest =>
      match processLine env pp infile (lineNum + 1) line st with
      | .error e => .error e
      | .ok st' => processLines env pp infile (lineNum + 1) rest st'

/-- The engine entry point (source lines 261-564): recursion-guard check,
guard append, read the input, run the line loop from the sentinel state,
end-of-input stack checks.  `fuel` bounds the include depth (the source
recurses unboundedly and relies on the guard alone). -/
def preprocess (env : Env) :
    Nat → String → Defines → List String → List String → List EvalCall →
      Except PPErr PPResult
  | 0, _, _, _, _, _ => .error .outOfFuel
  | fuel + 1, infile, defines, out, guard, evalLog =>
      if env.os.normpath (env.os.abspath infile) ∈ guard then
        .error (.recursiveInclude infile)
      else
        match env.os.readLines infile with
        | none => .error (.ioError infile)
        | some lines =>
            match processLines env (preprocess env fuel) infile 0 lines
                ⟨dictSet defines "__FILE__" (Value.vStr infile),
                 [⟨Mode.EMIT, false, false⟩], out,
                 guard ++ [env.os.abspath infile], evalLog⟩ with
            | .error e => .error e
            | .ok st =>
                if st.states.length > 1 then
                  .error (.unterminatedIf (dictGet st.defines "__FILE__")
                    (dictGet st.defines "__LINE__"))
                else if st.states.length < 1 then
                  .error (.superfluousEndifEof (dictGet st.defines "__FILE__")
                    (dictGet st.defines "__LINE__"))
                else .ok ⟨st.defines, st.out, st.guard, st.evalLog⟩

/-! ## Content-type registry (source lines 638-735) -/

/-- The three lookup maps of `ContentTypesRegistry`; a compiled regex is
abstracted as its `re.search`-on-basename test.  Map iteration order of
the Python dicts is stood in for by list order. -/
structure ContentTypesRegistry where
  filenameMap : List (String × String)
  suffixMap : List (String × String)
  regexMap : List ((String → Bool) × String)

/-- Association-list lookup, used for `has_key` plus indexing. -/
def assocGet {β : Type} : List (String × β) → String → Option β
  | [], _ => none
  | (k', v) :: rest, k => if k' = k then some v else assocGet rest k

/-- Python truthiness of the running `contentType` (None or `""`). -/
def notCT : Option String → Bool
  | none => true
  | some s => s.isEmpty

/-- Split a character list on a separator (Python `str.split(sep)`). -/
def splitOnChar (sep : Char) : List Char → List (List Char)
  | [] => [[]]
  | c :: cs =>
      if c = sep then [] :: splitOnChar sep cs
      else
        match splitOnChar sep cs with
        | [] => [[c]]
        | w :: ws => (c :: w) :: ws

/-- `os.path.basename` for POSIX-style paths. -/
def osBasename (p : String) : String :=
  String.mk ((splitOnChar '/' p.data).getLastD [])

/-- The regex scan (source lines 723-730): first matching pattern wins. -/
def findRegex : List ((String → Bool) × String) → String → Option String
  | [], _ => none
  | (re, ctype) :: rest, basename =>
      if re basename then some ctype else findRegex rest basename

/-- `ContentTypesRegistry.get_content_type` (source lines 697-735):
filename lookup, then suffix lookup, then regex scan - each only while
still unresolved - and then the content sniff, which in the source is
performed unconditionally (`open(path, 'rb').read()` happens at method
level, outside any `if not contentType` guard) and overwrites the result
whenever the content starts with `<?xml`.  `readBytes` abstracts the raw
read; `none` is Python's `IOError` on a missing file. -/
def get_content_type (isWindows : Bool) (readBytes : String → Option String)
    (reg : ContentTypesRegistry) (path : String) : Except PPErr (Option String) :=
  let basename := osBasename path
  let ct0 : Option String := none
  let ct1 := if notCT ct0 then
      match assocGet reg.filenameMap basename with
      | some t => some t
      | none => ct0
    else ct0
  let ct2 := if notCT ct1 && basename.data.contains '.' then
      let suffix0 := "." ++ String.mk ((splitOnChar '.' basename.data).getLastD [])
      let suffix := if isWindows then suffix0.toLower else suffix0
      match assocGet reg.suffixMap suffix with
      | some t => some t
      | none => ct1
    else ct1
  let ct3 := if notCT ct2 then
      match findRegex reg.regexMap basename with
      | some t => some t
      | none => ct2
    else ct2
  match readBytes path with
  | none => .error (.ioError path)
  | some content =>
      .ok (if "<?xml".data.isPrefixOf content.data then some "XML" else ct3)

/-! ## Specification-side definitions and observation helpers -/

/-- One step of a genuinely single, non-rescanning substitution pass:
at each position try the replacement pairs in order; on a match emit the
replacement and continue after the matched text, never rescanning the
inserted text.  The `Nat` is fuel bounded by the input length. -/
def spSub (reps : List (List Char × List Char)) : Nat → List Char → List Char
  | 0, s => s
  | _ + 1, [] => []
  | fuel + 1, c :: cs =>
      match reps.find? (fun p => decide (p.1 ≠ []) && p.1.isPrefixOf (c :: cs)) with
      | some p => p.2 ++ spSub reps fuel ((c :: cs).drop p.1.length)
      | none => c :: spSub reps fuel cs

/-- Modelled from the spec: "replacement is a single non-recursive pass
(already-substituted text is not rescanned)", with symbols "applied
longest-name-first".  This is the comparison semantics the specification
describes for the substitution of defines into an emitted line; the
engine's actual pass is `substituteDefines` above. -/
def substituteSinglePass (d : Defines) (line : String) : String :=
  let reps := (sortedNamesByLen d).map
    (fun n => (n.data, (pyStr ((dictGet d n).getD Value.vNone)).data))
  String.mk (spSub reps line.data.length line.data)

/-- Is this matched statement an `#include` (either form)? -/
def isIncl : Option Stmt → Bool
  | some (.sIncludePath _) => true
  | some (.sIncludeVar _) => true
  | _ => false

/-- Running the `#if`-nesting depth across the lines of one file never
drops below zero (each `#endif` has an open `#if`-family block). -/
def depthOkFrom (matcher : String → Option Stmt) : Nat → List String → Bool
  | _, [] => true
  | n, l :: ls =>
      match matcher l with
      | some (.sIf _) => depthOkFrom matcher (n + 1) ls
      | some (.sIfdef _) => depthOkFrom matcher (n + 1) ls
      | some (.sIfndef _) => depthOkFrom matcher (n + 1) ls
      | some .sEndif => decide (1 ≤ n) && depthOkFrom matcher (n - 1) ls
      | _ => depthOkFrom matcher n ls

/-- The `#if`-nesting depth left open after the lines of one file. -/
def depthAfter (matcher : String → Option Stmt) : Nat → List String → Nat
  | n, [] => n
  | n, l :: ls =>
      match matcher l with
      | some (.sIf _) => depthAfter matcher (n + 1) ls
      | some (.sIfdef _) => depthAfter matcher (n + 1) ls
      | some (.sIfndef _) => depthAfter matcher (n + 1) ls
      | some .sEndif => depthAfter matcher (n - 1) ls
      | _ => depthAfter matcher n ls

/-- The conditional-stack length after one matched line (push for the
`#if` family, pop for `#endif`, unchanged otherwise). -/
def stmtLen : Option Stmt → Nat → Nat
  | some (.sIf _), n => n + 1
  | some (.sIfdef _), n => n + 1
  | some (.sIfndef _), n => n + 1
  | some .sEndif, n => n - 1
  | _, n => n

/-- A file is well-formed (balanced) when no `#endif` is unmatched and no
`#if`-family block stays open at end of file. -/
def balancedLines (matcher : String → Option Stmt) (lines : List String) : Bool :=
  depthOkFrom matcher 0 lines && decide (depthAfter matcher 0 lines = 0)

/-- The error exits the specification calls "unterminated `#if` block" and
"superfluous `#endif`" (the latter has three raise sites in the source). -/
def isBalanceErr : PPErr → Bool
  | .endifWithoutIf _ _ _ => true
  | .superfluousEndifLine _ _ => true
  | .unterminatedIf _ _ => true
  | .superfluousEndifEof _ _ => true
  | _ => false

/-- A ghost evaluation record is good when the define table handed to the
evaluator maps `__LINE__` to the 1-based number of the directive's line. -/
def goodCallB (c : EvalCall) : Bool :=
  dictGet c.env "__LINE__" == some (Value.vInt (c.curLine : Int))

/-- All records of a ghost log are good. -/
def goodLogB (l : List EvalCall) : Bool := l.all goodCallB

/-- Observation: did the run succeed? -/
def resultOk {α : Type} : Except PPErr α → Bool
  | .ok _ => true
  | .error _ => false

/-- Observation: the output lines of a successful run. -/
def resultOut : Except PPErr PPResult → Option (List String)
  | .ok r => some r.output
  | .error _ => none

/-- Observation: the error of a failed run. -/
def resultErr {α : Type} : Except PPErr α → Option PPErr
  | .ok _ => none
  | .error e => some e

/-- Observation: the ghost evaluation log of a successful run. -/
def resultLog : Except PPErr PPResult → Option (List EvalCall)
  | .ok r => some r.evalLog
  | .error _ => none

/-! ## Concrete fixtures for witnesses and counterexamples

`decodeStmt` is a concrete line classifier (standing in for one compiled
pattern set): the first character of the line is the directive tag, the
rest of the line the operand; lines starting with any other character are
content. -/

/-- A concrete statement matcher over tagged lines. -/
def decodeStmt (line : String) : Option Stmt :=
  match line.data with
  | 'I' :: r => some (.sIf (String.mk r))
  | 'E' :: r => some (.sElif (String.mk r))
  | 'D' :: r => some (.sIfdef (String.mk r))
  | 'N' :: r => some (.sIfndef (String.mk r))
  | 'L' :: _ => some .sElse
  | 'F' :: _ => some .sEndif
  | 'R' :: r => some (.sError (String.mk r))
  | 'G' :: r => some (.sIncludePath (String.mk r))
  | 'V' :: r => some (.sIncludeVar (String.mk r))
  | 'U' :: r => some (.sUndef (String.mk r))
  | _ => none

/-- Build an `#if` line for `decodeStmt`. -/
def mkIfLine (e : String) : String := String.mk ('I' :: e.data)

/-- Build an `#elif` line for `decodeStmt`. -/
def mkElifLine (e : String) : String := String.mk ('E' :: e.data)

/-- The `#else` line for `decodeStmt`. -/
def mkElseLine : String := "L"

/-- The `#endif` line for `decodeStmt`. -/
def mkEndifLine : String := "F"

/-- The two lines of one `#elif` branch: the directive and one body line. -/
def branchLines (p : String × String) : List String := [mkElifLine p.1, p.2]

/-- A flat `#if`/`#elif`*/`#else` chain: the `#if` with one body line,
then the given `#elif` branches, then an `#else` with one body line, then
the `#endif`. -/
def chainLines (e0 b0 : String) (bs : List (String × String)) (belse : String) :
    List String :=
  mkIfLine e0 :: b0 ::
    ((bs.map branchLines).flatten ++ [mkElseLine, belse, mkEndifLine])

/-- An identity-path filesystem: `readLines` from a table, all path
operations trivial (which satisfies `normpath (abspath p) = abspath p`,
the property the real `os.path` has because `abspath` normalizes). -/
def osTable (files : List (String × List String)) : OS where
  readLines := fun p => (files.find? (fun q => q.1 == p)).map Prod.snd
  dirname := fun _ => ""
  joinPath := fun d f => if d.isEmpty then f else d ++ "/" ++ f
  normpath := fun p => p
  abspath := fun p => p

/-- A little concrete oracle: `T` is true, `F` is false, anything else
raises a Python `NameError`-style message. -/
def oracleTF : String → Defines → Except String Value := fun e _ =>
  if e = "T" then .ok (.vBool true)
  else if e = "F" then .ok (.vBool false)
  else .error ("name '" ++ e ++ "' is not defined")

/-- A concrete engine context over the table filesystem and the tagged
matcher, used by witnesses and counterexamples. -/
def mkEnv (files : List (String × List String)) (kl sub : Bool) : Env where
  oracle := oracleTF
  evalLiteral := fun _ => none
  matchStmt := decodeStmt
  os := osTable files
  include_paths := []
  should_keep_lines := kl
  should_substitute := sub

/-- A recursive-call stub for statements about a single line; a line that
is not an `#include` never invokes it. -/
def ppNone : PP := fun _ _ _ _ _ => .error .outOfFuel

/-- A registry whose suffix map resolves `.py`, for exercising
`get_content_type`. -/
def c4reg : ContentTypesRegistry := ⟨[], [(".py", "Python")], []⟩

/-- The run-to-run contract of the recursive call: a successful recursive
`preprocess` only ever appends to the recursion-guard list, and it keeps
the ghost evaluation log good. -/
def ppGood (pp : PP) : Prop :=
  ∀ f d o g l r, pp f d o g l = .ok r →
    g <+: r.guard ∧ (goodLogB l = true → goodLogB r.evalLog = true)

/-- A successful recursive `preprocess` strictly grows the recursion
guard: it records at least the entered file itself.  Consequently a
successful run whose guard did not grow beyond its own entry executed no
`#include` at all. -/
def ppStrict (pp : PP) : Prop :=
  ∀ f d o g l r, pp f d o g l = .ok r → g.length < r.guard.length

/-! ## Helper lemmas -/

theorem dictGet_dictSet_self (d : Defines) (k : String) (v : Value) :
    dictGet (dictSet d k v) k = some v := by
  induction d with
  | nil => simp [dictGet, dictSet]
  | cons p rest ih =>
      obtain ⟨k', v'⟩ := p
      by_cases h : k' = k
      · subst h; simp [dictSet, dictGet]
      · simp [dictSet, dictGet, h, ih]

theorem goodLogB_append (l1 l2 : List EvalCall) :
    goodLogB (l1 ++ l2) = (goodLogB l1 && goodLogB l2) := by
  simp [goodLogB, List.all_append]

theorem goodCallB_entry (expr : String) (d : Defines) (f : String) (n : Nat)
    (h : dictGet d "__LINE__" = some (Value.vInt n)) :
    goodCallB ⟨expr, d, f, n⟩ = true := by
  simp [goodCallB, h]

theorem execStmt_inv (env : Env) (pp : PP) (infile : String) (lineNum : Nat)
    (line : String) (stmt : Stmt) (st st2 : LoopState) (hpp : ppGood pp)
    (hline : dictGet st.defines "__LINE__" = some (Value.vInt lineNum))
    (h : execStmt env pp infile lineNum line stmt st = .ok st2) :
    st.guard <+: st2.guard ∧
      (goodLogB st.evalLog = true → goodLogB st2.evalLog = true) := by
  cases stmt with
  | sDefine var val =>
      simp only [execStmt] at h
      split at h
      · cases h; exact ⟨List.prefix_rfl, fun hg => hg⟩
      · cases h; exact ⟨List.prefix_rfl, fun hg => hg⟩
  | sUndef var =>
      simp only [execStmt] at h
      split at h
      · cases h; exact ⟨List.prefix_rfl, fun hg => hg⟩
      · cases h; exact ⟨List.prefix_rfl, fun hg => hg⟩
  | sIncludePath fname =>
      simp only [execStmt] at h
      split at h
      · cases h; exact ⟨List.prefix_rfl, fun hg => hg⟩
      · simp only [includeFile] at h
        split at h
        · cases h
        · split at h
          · cases h
          · rename_i r hr
            cases h
            exact ⟨(hpp _ _ _ _ _ _ hr).1, (hpp _ _ _ _ _ _ hr).2⟩
  | sIncludeVar var =>
      simp only [execStmt] at h
      split at h
      · cases h; exact ⟨List.prefix_rfl, fun hg => hg⟩
      · split at h
        · cases h
        · simp only [includeFile] at h
          split at h
          · cases h
          · split at h
            · cases h
            · rename_i r hr
              cases h
              exact ⟨(hpp _ _ _ _ _ _ hr).1, (hpp _ _ _ _ _ _ hr).2⟩
        · cases h
  | sIf e =>
      simp only [execStmt, condStep] at h
      split at h
      · cases h; exact ⟨List.prefix_rfl, fun hg => hg⟩
      · split at h
        · cases h
        · split at h <;>
          · cases h
            refine ⟨List.prefix_rfl, fun hg => ?_⟩
            have hc := goodCallB_entry e st.defines infile lineNum hline
            simp only [goodLogB, List.all_append, List.all_cons, List.all_nil,
              Bool.and_true] at hg hc ⊢
            simp [hg, hc]
  | sIfdef n =>
      simp only [execStmt, condStep] at h
      split at h
      · cases h; exact ⟨List.prefix_rfl, fun hg => hg⟩
      · split at h
        · cases h
        · split at h <;>
          · cases h
            refine ⟨List.prefix_rfl, fun hg => ?_⟩
            have hc := goodCallB_entry ("defined('" ++ n ++ "')")
              st.defines infile lineNum hline
            simp only [goodLogB, List.all_append, List.all_cons, List.all_nil,
              Bool.and_true] at hg hc ⊢
            simp [hg, hc]
  | sIfndef n =>
      simp only [execStmt, condStep] at h
      split at h
      · cases h; exact ⟨List.prefix_rfl, fun hg => hg⟩
      · split at h
        · cases h
        · split at h <;>
          · cases h
            refine ⟨List.prefix_rfl, fun hg => ?_⟩
            have hc := goodCallB_entry ("not defined('" ++ n ++ "')")
              st.defines infile lineNum hline
            simp only [goodLogB, List.all_append, List.all_cons, List.all_nil,
              Bool.and_true] at hg hc ⊢
            simp [hg, hc]
  | sElif e =>
      simp only [execStmt] at h
      split at h
      · cases h
      · split at h
        · cases h
        · split at h
          · cases h; exact ⟨List.prefix_rfl, fun hg => hg⟩
          · split at h
            · cases h; exact ⟨List.prefix_rfl, fun hg => hg⟩
            · split at h
              · cases h
              · split at h <;>
                · cases h
                  refine ⟨List.prefix_rfl, fun hg => ?_⟩
                  have hc := goodCallB_entry e st.defines infile lineNum hline
                  simp only [goodLogB, List.all_append, List.all_cons, List.all_nil,
                    Bool.and_true] at hg hc ⊢
                  simp [hg, hc]
  | sElse =>
      simp only [execStmt] at h
      split at h
      · cases h
      · split at h
        · cases h
        · split at h
          · cases h; exact ⟨List.prefix_rfl, fun hg => hg⟩
          · split at h
            · cases h; exact ⟨List.prefix_rfl, fun hg => hg⟩
            · cases h; exact ⟨List.prefix_rfl, fun hg => hg⟩
  | sEndif =>
      simp only [execStmt] at h
      split at h
      · cases h
      · cases h; exact ⟨List.prefix_rfl, fun hg => hg⟩
  | sError m =>
      simp only [execStmt] at h
      split at h
      · cases h; exact ⟨List.prefix_rfl, fun hg => hg⟩
      · cases h

theorem processLine_inv (env : Env) (pp : PP) (infile : String) (lineNum : Nat)
    (line : String) (st st' : LoopState) (hpp : ppGood pp)
    (h : processLine env pp infile lineNum line st = .ok st') :
    st.guard <+: st'.guard ∧
      (goodLogB st.evalLog = true → goodLogB st'.evalLog = true) := by
  simp only [processLine] at h
  split at h
  · rename_i stmt hm
    rcases hx : execStmt env pp infile lineNum line stmt
        { st with defines := dictSet st.defines "__LINE__" (Value.vInt lineNum) } with e | st2
    · rw [hx] at h; cases h
    · rw [hx] at h
      have hi := execStmt_inv env pp infile lineNum line stmt _ st2 hpp
        (dictGet_dictSet_self st.defines "__LINE__" (Value.vInt lineNum)) hx
      have hs : st' = klWrap env.should_keep_lines st2 := by
        simpa [Except.map] using h.symm
      subst hs
      unfold klWrap
      split
      · exact hi
      · exact hi
  · rename_i hm
    simp only [execContent] at h
    split at h
    · cases h
    · cases h; exact ⟨List.prefix_rfl, fun hg => hg⟩
    · split at h
      · cases h; exact ⟨List.prefix_rfl, fun hg => hg⟩
      · cases h; exact ⟨List.prefix_rfl, fun hg => hg⟩

theorem processLines_inv (env : Env) (pp : PP) (infile : String) (hpp : ppGood pp) :
    ∀ (lines : List String) (lineNum : Nat) (st st' : LoopState),
      processLines env pp infile lineNum lines st = .ok st' →
      st.guard <+: st'.guard ∧
        (goodLogB st.evalLog = true → goodLogB st'.evalLog = true) := by
  intro lines
  induction lines with
  | nil =>
      intro lineNum st st' h
      simp only [processLines] at h
      cases h; exact ⟨List.prefix_rfl, fun hg => hg⟩
  | cons line rest ih =>
      intro lineNum st st' h
      simp only [processLines] at h
      split at h
      · cases h
      · rename_i stm hstep
        have h1 := processLine_inv env pp infile (lineNum + 1) line st stm hpp hstep
        have h2 := ih (lineNum + 1) stm st' h
        exact ⟨h1.1.trans h2.1, fun hg => h2.2 (h1.2 hg)⟩

theorem preprocess_inv (env : Env) : ∀ fuel, ppGood (preprocess env fuel) := by
  intro fuel
  induction fuel with
  | zero =>
      intro f d o g l r h
      simp [preprocess] at h
  | succ fuel ih =>
      intro f d o g l r h
      simp only [preprocess] at h
      split at h
      · cases h
      · split at h
        · cases h
        · rename_i lines hlines
          split at h
          · cases h
          · rename_i st hst
            have hi := processLines_inv env (preprocess env fuel) f ih lines 0 _ st hst
            split at h
            · cases h
            · split at h
              · cases h
              · cases h
                refine ⟨(List.prefix_append g [env.os.abspath f]).trans hi.1, hi.2⟩

theorem execContent_shape (env : Env) (line : String) (s : LoopState) :
    (s.states ≠ [] → ∀ e, execContent env line s = .error e → False)
    ∧ (∀ s', execContent env line s = .ok s' →
        s'.defines = s.defines ∧ s'.states = s.states ∧ s'.guard = s.guard ∧
        s'.evalLog = s.evalLog ∧
        (env.should_keep_lines = true → s'.out.length = s.out.length + 1)) := by
  constructor
  · intro hne e he
    unfold execContent at he
    split at he
    · exact hne (by assumption)
    · cases he
    · split at he <;> cases he
  · intro s' h
    unfold execContent at h
    split at h
    · cases h
    · cases h
      refine ⟨rfl, rfl, rfl, rfl, fun _ => ?_⟩
      simp
    · split at h <;> cases h
      · refine ⟨rfl, rfl, rfl, rfl, fun _ => ?_⟩
        simp
      · rename_i hkl
        refine ⟨rfl, rfl, rfl, rfl, fun hk => absurd hk hkl⟩

theorem execStmt_shape (env : Env) (pp : PP) (infile : String) (lineNum : Nat)
    (line : String) (stmt : Stmt) (s : LoopState)
    (hni : isIncl (some stmt) = false) :
    (s.states ≠ [] → ∀ e, execStmt env pp infile lineNum line stmt s = .error e →
        isBalanceErr e = false)
    ∧ (∀ s', execStmt env pp infile lineNum line stmt s = .ok s' →
        s'.states.length = stmtLen (some stmt) s.states.length ∧ s'.out = s.out) := by
  cases stmt with
  | sDefine var val =>
      constructor
      · intro _ e he
        simp only [execStmt] at he
        split at he <;> cases he
      · intro s' h
        simp only [execStmt] at h
        split at h <;> · cases h; exact ⟨rfl, rfl⟩
  | sUndef var =>
      constructor
      · intro _ e he
        simp only [execStmt] at he
        split at he <;> cases he
      · intro s' h
        simp only [execStmt] at h
        split at h <;> · cases h; exact ⟨rfl, rfl⟩
  | sIncludePath fname => simp [isIncl] at hni
  | sIncludeVar var => simp [isIncl] at hni
  | sIf e =>
      constructor
      · intro _ er he
        simp only [execStmt, condStep] at he
        split at he
        · cases he
        · split at he
          · rename_i hev
            simp only [pyEvaluate] at hev
            split at hev
            · cases hev
            · cases he; cases hev; rfl
          · split at he <;> cases he
      · intro s' h
        simp only [execStmt, condStep] at h
        split at h
        · cases h; simp [stmtLen]
        · split at h
          · cases h
          · split at h <;> · cases h; simp [stmtLen]
  | sIfdef n =>
      constructor
      · intro _ er he
        simp only [execStmt, condStep] at he
        split at he
        · cases he
        · split at he
          · rename_i hev
            simp only [pyEvaluate] at hev
            split at hev
            · cases hev
            · cases he; cases hev; rfl
          · split at he <;> cases he
      · intro s' h
        simp only [execStmt, condStep] at h
        split at h
        · cases h; simp [stmtLen]
        · split at h
          · cases h
          · split at h <;> · cases h; simp [stmtLen]
  | sIfndef n =>
      constructor
      · intro _ er he
        simp only [execStmt, condStep] at he
        split at he
        · cases he
        · split at he
          · rename_i hev
            simp only [pyEvaluate] at hev
            split at hev
            · cases hev
            · cases he; cases hev; rfl
          · split at he <;> cases he
      · intro s' h
        simp only [execStmt, condStep] at h
        split at h
        · cases h; simp [stmtLen]
        · split at h
          · cases h
          · split at h <;> · cases h; simp [stmtLen]
  | sElif e =>
      constructor
      · intro _ er he
        simp only [execStmt] at he
        split at he
        · cases he; rfl
        · split at he
          · cases he; rfl
          · split at he
            · cases he
            · split at he
              · cases he
              · split at he
                · rename_i hev
                  simp only [pyEvaluate] at hev
                  split at hev
                  · cases hev
                  · cases he; cases hev; rfl
                · split at he <;> cases he
      · intro s' h
        simp only [execStmt] at h
        split at h
        · cases h
        · rename_i top rest heq
          split at h
          · cases h
          · split at h
            · cases h; simp [stmtLen, heq]
            · split at h
              · cases h; simp [stmtLen, heq]
              · split at h
                · cases h
                · split at h <;> · cases h; simp [stmtLen, heq]
  | sElse =>
      constructor
      · intro _ er he
        simp only [execStmt] at he
        split at he
        · cases he; rfl
        · split at he
          · cases he; rfl
          · split at he
            · cases he
            · split at he <;> cases he
      · intro s' h
        simp only [execStmt] at h
        split at h
        · cases h
        · rename_i top rest heq
          split at h
          · cases h
          · split at h
            · cases h; simp [stmtLen, heq]
            · split at h <;> · cases h; simp [stmtLen, heq]
  | sEndif =>
      constructor
      · intro hne er he
        simp only [execStmt] at he
        split at he
        · exact absurd (by assumption) hne
        · cases he
      · intro s' h
        simp only [execStmt] at h
        split at h
        · cases h
        · rename_i top rest heq
          cases h; simp [stmtLen, heq]
  | sError m =>
      constructor
      · intro _ er he
        simp only [execStmt] at he
        split at he
        · cases he
        · cases he; rfl
      · intro s' h
        simp only [execStmt] at h
        split at h
        · cases h; exact ⟨rfl, rfl⟩
        · cases h

theorem processLine_shape (env : Env) (pp : PP) (infile : String) (lineNum : Nat)
    (line : String) (st : LoopState)
    (hni : isIncl (env.matchStmt line) = false) :
    (st.states ≠ [] → ∀ e, processLine env pp infile lineNum line st = .error e →
        isBalanceErr e = false)
    ∧ (∀ st', processLine env pp infile lineNum line st = .ok st' →
        st'.states.length = stmtLen (env.matchStmt line) st.states.length
        ∧ (env.should_keep_lines = true → st'.out.length = st.out.length + 1)) := by
  rcases hm : env.matchStmt line with _ | stmt
  · have hc := execContent_shape env line
      { st with defines := dictSet st.defines "__LINE__" (Value.vInt lineNum) }
    constructor
    · intro hne e he
      simp only [processLine, hm] at he
      exact absurd he (fun hx => hc.1 hne e hx)
    · intro st' h
      simp only [processLine, hm] at h
      have hfacts := hc.2 st' h
      have hst : st'.states = st.states := hfacts.2.1
      refine ⟨?_, fun hk => hfacts.2.2.2.2 hk⟩
      rw [hst]
      rfl
  · rw [hm] at hni
    have hx := execStmt_shape env pp infile lineNum line stmt
      { st with defines := dictSet st.defines "__LINE__" (Value.vInt lineNum) } hni
    constructor
    · intro hne e he
      simp only [processLine, hm] at he
      rcases hx2 : execStmt env pp infile lineNum line stmt
          { st with defines := dictSet st.defines "__LINE__" (Value.vInt lineNum) }
        with er | s2
      · rw [hx2] at he
        have her : er = e := by simpa [Except.map] using he
        subst her
        exact hx.1 hne er hx2
      · rw [hx2] at he
        simp [Except.map] at he
    · intro st' h
      simp only [processLine, hm] at h
      rcases hx2 : execStmt env pp infile lineNum line stmt
          { st with defines := dictSet st.defines "__LINE__" (Value.vInt lineNum) }
        with er | s2
      · rw [hx2] at h
        cases h
      · rw [hx2] at h
        have hs : st' = klWrap env.should_keep_lines s2 := by
          simpa [Except.map] using h.symm
        subst hs
        have h2 := hx.2 s2 hx2
        constructor
        · unfold klWrap
          split <;> simpa using h2.1
        · intro hk
          unfold klWrap
          rw [if_pos hk]
          simp [h2.2]

theorem processLines_balance (env : Env) (pp : PP) (infile : String) :
    ∀ (lines : List String) (lineNum : Nat) (st : LoopState) (n : Nat),
      (∀ l ∈ lines, isIncl (env.matchStmt l) = false) →
      st.states.length = n + 1 →
      depthOkFrom env.matchStmt n lines = true →
      (∀ e, processLines env pp infile lineNum lines st = .error e →
          isBalanceErr e = false)
      ∧ (∀ st', processLines env pp infile lineNum lines st = .ok st' →
          st'.states.length = depthAfter env.matchStmt n lines + 1) := by
  intro lines
  induction lines with
  | nil =>
      intro lineNum st n hincl hlen hok
      constructor
      · intro e he; simp [processLines] at he
      · intro st' h
        simp only [processLines] at h
        cases h
        simpa [depthAfter] using hlen
  | cons line rest ih =>
      intro lineNum st n hincl hlen hok
      have hni : isIncl (env.matchStmt line) = false := hincl line (by simp)
      have hincl' : ∀ l ∈ rest, isIncl (env.matchStmt l) = false :=
        fun l hl => hincl l (by simp [hl])
      have hne : st.states ≠ [] := by
        intro hx; rw [hx] at hlen; simp at hlen
      have hsh := processLine_shape env pp infile (lineNum + 1) line st hni
      constructor
      · intro e he
        simp only [processLines] at he
        split at he
        · cases he
          rename_i her
          exact hsh.1 hne e her
        · rename_i st1 hst1
          have hlen1 := (hsh.2 st1 hst1).1
          rw [hlen] at hlen1
          rcases hm : env.matchStmt line with _ | stmt
          · rw [hm] at hlen1
            simp only [depthOkFrom, hm] at hok
            exact (ih (lineNum + 1) st1 n hincl'
              (by simpa [stmtLen] using hlen1) hok).1 e he
          · rw [hm] at hlen1
            simp only [depthOkFrom, hm] at hok
            cases stmt <;> simp only [stmtLen] at hlen1
            case sIf ex =>
              exact (ih _ st1 (n + 1) hincl' hlen1 hok).1 e he
            case sIfdef nm =>
              exact (ih _ st1 (n + 1) hincl' hlen1 hok).1 e he
            case sIfndef nm =>
              exact (ih _ st1 (n + 1) hincl' hlen1 hok).1 e he
            case sEndif =>
              simp only [Bool.and_eq_true, decide_eq_true_eq] at hok
              refine (ih _ st1 (n - 1) hincl' (by omega) hok.2).1 e he
            case sElif ex =>
              exact (ih _ st1 n hincl' hlen1 hok).1 e he
            case sElse =>
              exact (ih _ st1 n hincl' hlen1 hok).1 e he
            case sError m =>
              exact (ih _ st1 n hincl' hlen1 hok).1 e he
            case sDefine v vl =>
              exact (ih _ st1 n hincl' hlen1 hok).1 e he
            case sUndef v =>
              exact (ih _ st1 n hincl' hlen1 hok).1 e he
            case sIncludePath f => rw [hm] at hni; simp [isIncl] at hni
            case sIncludeVar v => rw [hm] at hni; simp [isIncl] at hni
      · intro st' h
        simp only [processLines] at h
        split at h
        · cases h
        · rename_i st1 hst1
          have hlen1 := (hsh.2 st1 hst1).1
          rw [hlen] at hlen1
          rcases hm : env.matchStmt line with _ | stmt
          · rw [hm] at hlen1
            simp only [depthOkFrom, hm] at hok
            simp only [depthAfter, hm]
            exact (ih (lineNum + 1) st1 n hincl'
              (by simpa [stmtLen] using hlen1) hok).2 st' h
          · rw [hm] at hlen1
            simp only [depthOkFrom, hm] at hok
            simp only [depthAfter, hm]
            cases stmt <;> simp only [stmtLen] at hlen1
            case sIf ex =>
              exact (ih _ st1 (n + 1) hincl' hlen1 hok).2 st' h
            case sIfdef nm =>
              exact (ih _ st1 (n + 1) hincl' hlen1 hok).2 st' h
            case sIfndef nm =>
              exact (ih _ st1 (n + 1) hincl' hlen1 hok).2 st' h
            case sEndif =>
              simp only [Bool.and_eq_true, decide_eq_true_eq] at hok
              refine (ih _ st1 (n - 1) hincl' (by omega) hok.2).2 st' h
            case sElif ex =>
              exact (ih _ st1 n hincl' hlen1 hok).2 st' h
            case sElse =>
              exact (ih _ st1 n hincl' hlen1 hok).2 st' h
            case sError m =>
              exact (ih _ st1 n hincl' hlen1 hok).2 st' h
            case sDefine v vl =>
              exact (ih _ st1 n hincl' hlen1 hok).2 st' h
            case sUndef v =>
              exact (ih _ st1 n hincl' hlen1 hok).2 st' h
            case sIncludePath f => rw [hm] at hni; simp [isIncl] at hni
            case sIncludeVar v => rw [hm] at hni; simp [isIncl] at hni

theorem processLine_kl_step (env : Env) (pp : PP) (infile : String) (lineNum : Nat)
    (line : String) (st st' : LoopState)
    (hkl : env.should_keep_lines = true) (hppS : ppStrict pp)
    (h : processLine env pp infile lineNum line st = .ok st')
    (hg : st'.guard.length = st.guard.length) :
    st'.out.length = st.out.length + 1 := by
  rcases hm : env.matchStmt line with _ | stmt
  · simp only [processLine, hm] at h
    exact ((execContent_shape env line
      { st with defines := dictSet st.defines "__LINE__" (Value.vInt lineNum) }).2
      st' h).2.2.2.2 hkl
  · simp only [processLine, hm] at h
    rcases hx2 : execStmt env pp infile lineNum line stmt
        { st with defines := dictSet st.defines "__LINE__" (Value.vInt lineNum) }
      with er | s2
    · rw [hx2] at h
      cases h
    · rw [hx2] at h
      have hs : st' = klWrap env.should_keep_lines s2 := by
        simpa [Except.map] using h.symm
      subst hs
      cases stmt
      case sIncludePath f =>
          simp only [execStmt] at hx2
          split at hx2
          · cases hx2
            simp [klWrap, hkl]
          · simp only [includeFile] at hx2
            split at hx2
            · cases hx2
            · split at hx2
              · cases hx2
              · rename_i r hr
                cases hx2
                have hlt : st.guard.length < r.guard.length :=
                  hppS _ _ _ _ _ _ hr
                have hg2 : r.guard.length = st.guard.length := by
                  simpa [klWrap, hkl] using hg
                omega
      case sIncludeVar v =>
          simp only [execStmt] at hx2
          split at hx2
          · cases hx2
            simp [klWrap, hkl]
          · split at hx2
            · cases hx2
            · simp only [includeFile] at hx2
              split at hx2
              · cases hx2
              · split at hx2
                · cases hx2
                · rename_i r hr
                  cases hx2
                  have hlt : st.guard.length < r.guard.length :=
                    hppS _ _ _ _ _ _ hr
                  have hg2 : r.guard.length = st.guard.length := by
                    simpa [klWrap, hkl] using hg
                  omega
            · cases hx2
      all_goals {
        have h2 := (execStmt_shape env pp infile lineNum line _
          { st with defines := dictSet st.defines "__LINE__" (Value.vInt lineNum) }
          (by rfl)).2 s2 hx2
        unfold klWrap
        rw [if_pos hkl]
        simp [h2.2]
      }

theorem processLines_kl_noexec (env : Env) (pp : PP) (infile : String)
    (hkl : env.should_keep_lines = true) (hppS : ppStrict pp) (hppG : ppGood pp) :
    ∀ (lines : List String) (lineNum : Nat) (st st' : LoopState),
      processLines env pp infile lineNum lines st = .ok st' →
      st'.guard.length = st.guard.length →
      st'.out.length = st.out.length + lines.length := by
  intro lines
  induction lines with
  | nil =>
      intro lineNum st st' h _
      simp only [processLines] at h
      cases h
      simp
  | cons line rest ih =>
      intro lineNum st st' h hg
      simp only [processLines] at h
      split at h
      · cases h
      · rename_i st1 hst1
        have hpre1 := (processLine_inv env pp infile (lineNum + 1) line st st1 hppG
          hst1).1.length_le
        have hpre2 := (processLines_inv env pp infile hppG rest (lineNum + 1) st1 st'
          h).1.length_le
        have hg1 : st1.guard.length = st.guard.length := by omega
        have hstep := processLine_kl_step env pp infile (lineNum + 1) line st st1
          hkl hppS hst1 hg1
        have htail := ih (lineNum + 1) st1 st' h (by omega)
        rw [htail, hstep]
        simp [Nat.add_assoc, Nat.add_comm 1 rest.length]

theorem preprocess_strict (env : Env) : ∀ fuel, ppStrict (preprocess env fuel) := by
  intro fuel f d o g l r h
  cases fuel with
  | zero => simp [preprocess] at h
  | succ fuel =>
      simp only [preprocess] at h
      split at h
      · cases h
      · split at h
        · cases h
        · rename_i lines hlines
          split at h
          · cases h
          · rename_i st hst
            have hi := (processLines_inv env (preprocess env fuel) f
              (preprocess_inv env fuel) lines 0 _ st hst).1.length_le
            split at h
            · cases h
            · split at h
              · cases h
              · cases h
                simp only [List.length_append, List.length_cons,
                  List.length_nil] at hi
                show g.length < st.guard.length
                omega

theorem decodeStmt_mkIfLine (e : String) : decodeStmt (mkIfLine e) = some (.sIf e) := by
  cases e; rfl

theorem decodeStmt_mkElifLine (e : String) :
    decodeStmt (mkElifLine e) = some (.sElif e) := by
  cases e; rfl

theorem decodeStmt_mkElseLine : decodeStmt mkElseLine = some .sElse := rfl

theorem decodeStmt_mkEndifLine : decodeStmt mkEndifLine = some .sEndif := rfl

theorem processLines_cons_ok (env : Env) (pp : PP) (infile : String) (lineNum : Nat)
    (line : String) (rest : List String) (st st1 : LoopState)
    (h : processLine env pp infile (lineNum + 1) line st = .ok st1) :
    processLines env pp infile lineNum (line :: rest) st
      = processLines env pp infile (lineNum + 1) rest st1 := by
  simp [processLines, h]

theorem processLine_content_skip (env : Env) (pp : PP) (infile : String)
    (lineNum : Nat) (line : String) (a b : Bool) (rest : List BlockState)
    (d : Defines) (out g : List String) (lg : List EvalCall)
    (hm : env.matchStmt line = none) (hkl : env.should_keep_lines = false) :
    processLine env pp infile lineNum line ⟨d, ⟨Mode.SKIP, a, b⟩ :: rest, out, g, lg⟩
      = .ok ⟨dictSet d "__LINE__" (.vInt lineNum), ⟨Mode.SKIP, a, b⟩ :: rest,
             out, g, lg⟩ := by
  simp [processLine, hm, execContent, hkl]

theorem processLine_content_emit (env : Env) (pp : PP) (infile : String)
    (lineNum : Nat) (line : String) (a b : Bool) (rest : List BlockState)
    (d : Defines) (out g : List String) (lg : List EvalCall)
    (hm : env.matchStmt line = none) (hsub : env.should_substitute = false) :
    processLine env pp infile lineNum line ⟨d, ⟨Mode.EMIT, a, b⟩ :: rest, out, g, lg⟩
      = .ok ⟨dictSet d "__LINE__" (.vInt lineNum), ⟨Mode.EMIT, a, b⟩ :: rest,
             out ++ [line], g, lg⟩ := by
  simp [processLine, hm, execContent, hsub]

theorem processLine_elif_emitted (env : Env) (pp : PP) (infile : String)
    (lineNum : Nat) (line e : String) (m : Mode) (rest : List BlockState)
    (d : Defines) (out g : List String) (lg : List EvalCall)
    (hm : env.matchStmt line = some (.sElif e)) (hkl : env.should_keep_lines = false) :
    processLine env pp infile lineNum line ⟨d, ⟨m, true, false⟩ :: rest, out, g, lg⟩
      = .ok ⟨dictSet d "__LINE__" (.vInt lineNum), ⟨Mode.SKIP, true, false⟩ :: rest,
             out, g, lg⟩ := by
  simp [processLine, hm, execStmt, klWrap, hkl, Except.map]

theorem processLine_elif_eval_false (env : Env) (pp : PP) (infile : String)
    (lineNum : Nat) (line e : String) (x y : Bool) (rest2 : List BlockState)
    (d : Defines) (out g : List String) (lg : List EvalCall) (v : Value)
    (hm : env.matchStmt line = some (.sElif e)) (hkl : env.should_keep_lines = false)
    (hv : env.oracle e (dictSet d "__LINE__" (.vInt lineNum)) = .ok v)
    (hvf : pyTruthy v = false) :
    processLine env pp infile lineNum line
        ⟨d, ⟨Mode.SKIP, false, false⟩ :: ⟨Mode.EMIT, x, y⟩ :: rest2, out, g, lg⟩
      = .ok ⟨dictSet d "__LINE__" (.vInt lineNum),
             ⟨Mode.SKIP, false, false⟩ :: ⟨Mode.EMIT, x, y⟩ :: rest2,
             out, g,
             lg ++ [⟨e, dictSet d "__LINE__" (.vInt lineNum), infile, lineNum⟩]⟩ := by
  simp [processLine, hm, execStmt, topSkip, pyEvaluate, hv, hvf, klWrap, hkl,
    Except.map]

theorem processLine_elif_eval_true (env : Env) (pp : PP) (infile : String)
    (lineNum : Nat) (line e : String) (x y : Bool) (rest2 : List BlockState)
    (d : Defines) (out g : List String) (lg : List EvalCall) (v : Value)
    (hm : env.matchStmt line = some (.sElif e)) (hkl : env.should_keep_lines = false)
    (hv : env.oracle e (dictSet d "__LINE__" (.vInt lineNum)) = .ok v)
    (hvt : pyTruthy v = true) :
    processLine env pp infile lineNum line
        ⟨d, ⟨Mode.SKIP, false, false⟩ :: ⟨Mode.EMIT, x, y⟩ :: rest2, out, g, lg⟩
      = .ok ⟨dictSet d "__LINE__" (.vInt lineNum),
             ⟨Mode.EMIT, true, false⟩ :: ⟨Mode.EMIT, x, y⟩ :: rest2,
             out, g,
             lg ++ [⟨e, dictSet d "__LINE__" (.vInt lineNum), infile, lineNum⟩]⟩ := by
  simp [processLine, hm, execStmt, topSkip, pyEvaluate, hv, hvt, klWrap, hkl,
    Except.map]

theorem processLine_if_eval_false (env : Env) (pp : PP) (infile : String)
    (lineNum : Nat) (line e : String) (sts : List BlockState)
    (d : Defines) (out g : List String) (lg : List EvalCall) (v : Value)
    (hm : env.matchStmt line = some (.sIf e)) (hskip : topSkip sts = false)
    (hkl : env.should_keep_lines = false)
    (hv : env.oracle e (dictSet d "__LINE__" (.vInt lineNum)) = .ok v)
    (hvf : pyTruthy v = false) :
    processLine env pp infile lineNum line ⟨d, sts, out, g, lg⟩
      = .ok ⟨dictSet d "__LINE__" (.vInt lineNum),
             ⟨Mode.SKIP, false, false⟩ :: sts,
             out, g,
             lg ++ [⟨e, dictSet d "__LINE__" (.vInt lineNum), infile, lineNum⟩]⟩ := by
  simp [processLine, hm, execStmt, condStep, hskip, pyEvaluate, hv, hvf, klWrap,
    hkl, Except.map]

theorem processLine_else_emitted (env : Env) (pp : PP) (infile : String)
    (lineNum : Nat) (line : String) (m : Mode) (rest : List BlockState)
    (d : Defines) (out g : List String) (lg : List EvalCall)
    (hm : env.matchStmt line = some .sElse) (hkl : env.should_keep_lines = false) :
    processLine env pp infile lineNum line ⟨d, ⟨m, true, false⟩ :: rest, out, g, lg⟩
      = .ok ⟨dictSet d "__LINE__" (.vInt lineNum), ⟨Mode.SKIP, true, true⟩ :: rest,
             out, g, lg⟩ := by
  simp [processLine, hm, execStmt, klWrap, hkl, Except.map]

theorem processLine_endif_pop (env : Env) (pp : PP) (infile : String)
    (lineNum : Nat) (line : String) (top : BlockState) (rest : List BlockState)
    (d : Defines) (out g : List String) (lg : List EvalCall)
    (hm : env.matchStmt line = some .sEndif) (hkl : env.should_keep_lines = false) :
    processLine env pp infile lineNum line ⟨d, top :: rest, out, g, lg⟩
      = .ok ⟨dictSet d "__LINE__" (.vInt lineNum), rest, out, g, lg⟩ := by
  simp [processLine, hm, execStmt, klWrap, hkl, Except.map]

theorem c5_skip_branches (env : Env) (pp : PP) (infile : String)
    (hms : env.matchStmt = decodeStmt) (hkl : env.should_keep_lines = false) :
    ∀ (bs : List (String × String)) (tail : List String) (lineNum : Nat)
      (d : Defines) (out g : List String) (lg : List EvalCall)
      (m : Mode) (rest : List BlockState),
      (∀ p ∈ bs, decodeStmt p.2 = none) →
      ∃ d' m' n', processLines env pp infile lineNum
          ((bs.map branchLines).flatten ++ tail)
          ⟨d, ⟨m, true, false⟩ :: rest, out, g, lg⟩
        = processLines env pp infile n' tail
            ⟨d', ⟨m', true, false⟩ :: rest, out, g, lg⟩ := by
  intro bs
  induction bs with
  | nil =>
      intro tail lineNum d out g lg m rest _
      exact ⟨d, m, lineNum, by simp⟩
  | cons p bs ih =>
      intro tail lineNum d out g lg m rest hb
      obtain ⟨e, b⟩ := p
      have hbd : decodeStmt b = none := hb (e, b) (by simp)
      have hb' : ∀ q ∈ bs, decodeStmt q.2 = none := fun q hq => hb q (by simp [hq])
      simp only [List.map_cons, List.flatten_cons, branchLines, List.cons_append,
        List.append_assoc, List.nil_append]
      rw [processLines_cons_ok env pp infile lineNum _ _ _ _
        (processLine_elif_emitted env pp infile (lineNum + 1) _ e m rest d out g lg
          (by rw [hms]; exact decodeStmt_mkElifLine e) hkl)]
      rw [processLines_cons_ok env pp infile (lineNum + 1) _ _ _ _
        (processLine_content_skip env pp infile (lineNum + 1 + 1) b true false rest
          _ out g lg (by rw [hms]; exact hbd) hkl)]
      exact ih tail (lineNum + 1 + 1) _ out g lg Mode.SKIP rest hb'

theorem c5_pre_branches (env : Env) (pp : PP) (infile : String)
    (hms : env.matchStmt = decodeStmt) (hkl : env.should_keep_lines = false) :
    ∀ (bs : List (String × String)) (tail : List String) (lineNum : Nat)
      (d : Defines) (out g : List String) (lg : List EvalCall)
      (x y : Bool) (rest2 : List BlockState),
      (∀ p ∈ bs, decodeStmt p.2 = none) →
      (∀ p ∈ bs, ∀ dd, ∃ v, env.oracle p.1 dd = .ok v ∧ pyTruthy v = false) →
      ∃ d' lg' n', processLines env pp infile lineNum
          ((bs.map branchLines).flatten ++ tail)
          ⟨d, ⟨Mode.SKIP, false, false⟩ :: ⟨Mode.EMIT, x, y⟩ :: rest2, out, g, lg⟩
        = processLines env pp infile n' tail
            ⟨d', ⟨Mode.SKIP, false, false⟩ :: ⟨Mode.EMIT, x, y⟩ :: rest2, out, g, lg'⟩ := by
  intro bs
  induction bs with
  | nil =>
      intro tail lineNum d out g lg x y rest2 _ _
      exact ⟨d, lg, lineNum, by simp⟩
  | cons p bs ih =>
      intro tail lineNum d out g lg x y rest2 hb hc
      obtain ⟨e, b⟩ := p
      have hbd : decodeStmt b = none := hb (e, b) (by simp)
      have hb' : ∀ q ∈ bs, decodeStmt q.2 = none := fun q hq => hb q (by simp [hq])
      have hc' : ∀ q ∈ bs, ∀ dd, ∃ v, env.oracle q.1 dd = .ok v ∧ pyTruthy v = false :=
        fun q hq => hc q (by simp [hq])
      obtain ⟨v, hv, hvf⟩ := hc (e, b) (by simp)
        (dictSet d "__LINE__" (.vInt (lineNum + 1)))
      simp only [List.map_cons, List.flatten_cons, branchLines, List.cons_append,
        List.append_assoc, List.nil_append]
      rw [processLines_cons_ok env pp infile lineNum _ _ _ _
        (processLine_elif_eval_false env pp infile (lineNum + 1) _ e x y rest2 d out g
          lg v (by rw [hms]; exact decodeStmt_mkElifLine e) hkl hv hvf)]
      rw [processLines_cons_ok env pp infile (lineNum + 1) _ _ _ _
        (processLine_content_skip env pp infile (lineNum + 1 + 1) b false false _
          _ out g _ (by rw [hms]; exact hbd) hkl)]
      exact ih tail (lineNum + 1 + 1) _ out g _ x y rest2 hb' hc'

/-! ## Claim theorems -/

/-- Claim C2: whenever the file about to be entered is already on the
active include chain (its canonical path is in the guard list the call was
handed), `preprocess` fails with the recursive-include error before
touching the file - for every filesystem, oracle, matcher and option set,
so in particular through any number of intermediate files.  The second
conjunct runs the concrete transitive chain A includes B includes A and
observes exactly that failure. -/
theorem c2_recursive_include (env : Env) (fuel : Nat) (infile : String)
    (d : Defines) (out g : List String) (l : List EvalCall)
    (hmem : env.os.normpath (env.os.abspath infile) ∈ g) :
    preprocess env (fuel + 1) infile d out g l = .error (.recursiveInclude infile)
    ∧ preprocess (mkEnv [("A", ["GB"]), ("B", ["GA"])] false false) 3 "A" [] [] [] []
        = .error (.recursiveInclude "A") := by
  constructor
  · simp [preprocess, hmem]
  · rfl

/-- Witness for C2 at a concrete input: entering "A" with "A" already on
the guard fails with the recursive-include error. -/
theorem c2_recursive_include_witness :
    preprocess (mkEnv [("A", ["x"])] false false) 1 "A" [] [] ["A"] []
      = .error (.recursiveInclude "A") :=
  (c2_recursive_include (mkEnv [("A", ["x"])] false false) 0 "A" [] [] ["A"] []
    (by decide)).1

/-- Claim C3 (corrected): at every expression evaluation the define table
maps `__LINE__` to the 1-based number of the line holding the directive
being evaluated (the ghost log records the table handed to `eval` together
with the true file and line).  The `__FILE__` half of the original claim
is false: see the counterexample, where an evaluation in the including
file after an `#include` has returned still sees the included file's
path. -/
theorem c3_line_current_at_eval (env : Env) (fuel : Nat) (infile : String)
    (d : Defines) (out g : List String) (l : List EvalCall) (r : PPResult)
    (hl : goodLogB l = true)
    (h : preprocess env fuel infile d out g l = .ok r) :
    goodLogB r.evalLog = true :=
  (preprocess_inv env fuel infile d out g l r h).2 hl

/-- Witness for C3: a concrete run with one `#if T` evaluation; the logged
table maps `__LINE__` to the directive's line 1. -/
theorem c3_line_current_at_eval_witness :
    goodLogB [⟨"T", [("__FILE__", .vStr "A"), ("__LINE__", .vInt 1)], "A", 1⟩] = true :=
  c3_line_current_at_eval (mkEnv [("A", ["IT", "F"])] false false) 1 "A" [] [] [] []
    ⟨[("__FILE__", .vStr "A"), ("__LINE__", .vInt 2)], [], ["A"],
      [⟨"T", [("__FILE__", .vStr "A"), ("__LINE__", .vInt 1)], "A", 1⟩]⟩
    rfl rfl

/-- Counterexample for C3 as stated: file "A" first includes the (empty)
file "B" and then evaluates `#if T` on its own line 2; the table handed to
that evaluation maps `__FILE__` to "B", not to "A", the file containing
the directive - `__FILE__` is never restored after an include returns. -/
theorem c3_stale_file_cex :
    (resultLog (preprocess (mkEnv [("A", ["GB", "IT", "x", "F"]), ("B", [])]
          false false) 3 "A" [] [] [] [])).map
        (List.map (fun c => (c.expr, dictGet c.env "__FILE__", c.curFile, c.curLine)))
      = some [("T", some (.vStr "B"), "A", 2)]
    ∧ Value.vStr "B" ≠ Value.vStr "A" := by
  exact ⟨rfl, by decide⟩

/-- Claim C10: the recursion-guard list is append-only across the whole
run - a successful `preprocess` returns the incoming guard as a prefix of
the outgoing one with the entered file's canonical path added, and paths
are never removed when a file's processing completes.  The second conjunct
is the observable consequence on the concrete sibling layout: "A" includes
"B" twice; the second include of the already fully processed "B" fails as
a recursive include. -/
theorem c10_guard_append_only (env : Env) (fuel : Nat) (infile : String)
    (d : Defines) (out g : List String) (l : List EvalCall) (r : PPResult)
    (h : preprocess env fuel infile d out g l = .ok r) :
    (g <+: r.guard ∧ env.os.abspath infile ∈ r.guard)
    ∧ preprocess (mkEnv [("A", ["GB", "GB"]), ("B", ["x"])] false false) 3 "A" [] [] [] []
        = .error (.recursiveInclude "B") := by
  refine ⟨⟨(preprocess_inv env fuel infile d out g l r h).1, ?_⟩, rfl⟩
  cases fuel with
  | zero => simp [preprocess] at h
  | succ fuel =>
      simp only [preprocess] at h
      split at h
      · cases h
      · split at h
        · cases h
        · rename_i lines hlines
          split at h
          · cases h
          · rename_i st hst
            have hi := processLines_inv env (preprocess env fuel) infile
              (preprocess_inv env fuel) lines 0 _ st hst
            split at h
            · cases h
            · split at h
              · cases h
              · cases h
                exact hi.1.subset (by simp)

/-- Witness for C10: the concrete single-include run "A" includes "B";
the empty incoming guard is a prefix of the outgoing guard and "A"'s
canonical path is recorded on it. -/
theorem c10_guard_append_only_witness :
    (([] : List String) <+: ["A", "B"]) ∧ "A" ∈ ["A", "B"] :=
  (c10_guard_append_only (mkEnv [("A", ["GB"]), ("B", ["x"])] false false) 2 "A"
    [] [] [] []
    ⟨[("__FILE__", .vStr "B"), ("__LINE__", .vInt 1)], ["x"], ["A", "B"], []⟩
    rfl).1

/-- Claim C4 (code bug): the suffix lookup resolves "a.py" to "Python",
yet because the source performs the `<?xml` content sniff unconditionally
(outside any `if not contentType` guard, unlike the three path-based
steps), `get_content_type` returns "XML" for a `.py` file whose content
starts with `<?xml` - the sniff overrides a successful path-based
lookup instead of running only when all three fail. -/
theorem c4_sniff_overrides_bug :
    assocGet c4reg.suffixMap ".py" = some "Python"
    ∧ get_content_type false
        (fun p => if p = "a.py" then some "<?xml version=\"1.0\"?>" else none)
        c4reg "a.py" = .ok (some "XML")
    ∧ some ("XML" : String) ≠ some "Python" :=
  ⟨rfl, by rfl, by decide⟩

/-- Claim C6: an `#if`/`#ifdef`/`#ifndef` line seen while the top of the
conditional stack is SKIP pushes `(SKIP,0,0)` without evaluating the
condition: the result is the same for every oracle (the context `env` is
arbitrary), the run cannot fail, and the ghost evaluation log shows no
call - so an expression over undefined variables inside an untaken branch
never raises. -/
theorem c6_nested_skip_no_eval (env : Env) (pp : PP) (infile : String)
    (lineNum : Nat) (line e : String) (a b : Bool) (rest : List BlockState)
    (d : Defines) (out g : List String) (lg : List EvalCall)
    (hm : env.matchStmt line = some (.sIf e) ∨ env.matchStmt line = some (.sIfdef e)
      ∨ env.matchStmt line = some (.sIfndef e)) :
    processLine env pp infile lineNum line ⟨d, ⟨Mode.SKIP, a, b⟩ :: rest, out, g, lg⟩
      = .ok ⟨dictSet d "__LINE__" (.vInt lineNum),
             ⟨Mode.SKIP, false, false⟩ :: ⟨Mode.SKIP, a, b⟩ :: rest,
             if env.should_keep_lines then out ++ [""] else out, g, lg⟩ := by
  rcases hm with hm | hm | hm <;>
  · simp only [processLine, hm, execStmt, condStep, topSkip, Except.map, klWrap]
    by_cases hkl : env.should_keep_lines <;> simp [hkl]

/-- Witness for C6: a concrete `#if BOOM` inside a skipped section, with
an oracle that fails on every expression; the line still succeeds and
pushes `(SKIP,0,0)`. -/
theorem c6_nested_skip_no_eval_witness :
    processLine
        { oracle := fun _ _ => .error "boom", evalLiteral := fun _ => none,
          matchStmt := decodeStmt, os := osTable [], include_paths := [],
          should_keep_lines := false, should_substitute := false }
        ppNone "A" 2 "IBOOM"
        ⟨[], [⟨Mode.SKIP, true, false⟩], [], [], []⟩
      = .ok ⟨dictSet [] "__LINE__" (.vInt 2),
             [⟨Mode.SKIP, false, false⟩, ⟨Mode.SKIP, true, false⟩], [], [], []⟩ :=
  c6_nested_skip_no_eval _ ppNone "A" 2 "IBOOM" "BOOM" true false [] [] [] [] []
    (Or.inl rfl)

/-- Claim C8 (corrected): the emitted line is produced by
`substituteDefines`, which applies the defined names longest first (first
conjunct: the name list is sorted by non-increasing length; second: it is
exactly the keys of the table) - but the pass is a sequential
`replace` per name over the already-substituted text, not a
non-rescanning single pass; the counterexample shows replaced text being
matched again. -/
theorem c8_substitution_longest_first :
    (∀ d : Defines, List.Pairwise (fun a b : String => b.length ≤ a.length)
        (sortedNamesByLen d))
    ∧ (∀ d : Defines, (sortedNamesByLen d).Perm (d.map Prod.fst))
    ∧ (∀ (env : Env) (pp : PP) (infile : String) (lineNum : Nat) (line : String)
        (d : Defines) (a b : Bool) (rest : List BlockState) (out g : List String)
        (lg : List EvalCall),
        env.matchStmt line = none → env.should_substitute = true →
        processLine env pp infile lineNum line ⟨d, ⟨Mode.EMIT, a, b⟩ :: rest, out, g, lg⟩
          = .ok ⟨dictSet d "__LINE__" (.vInt lineNum), ⟨Mode.EMIT, a, b⟩ :: rest,
                 out ++ [substituteDefines (dictSet d "__LINE__" (.vInt lineNum)) line],
                 g, lg⟩) := by
  refine ⟨fun d => ?_, fun d => ?_, fun env pp infile lineNum line d a b rest out g lg hm hsub => ?_⟩
  · haveI : IsTotal String (fun a b : String => a.length ≤ b.length) :=
      ⟨fun a b => Nat.le_total a.length b.length⟩
    haveI : IsTrans String (fun a b : String => a.length ≤ b.length) :=
      ⟨fun a b c hab hbc => Nat.le_trans hab hbc⟩
    rw [sortedNamesByLen, List.pairwise_reverse]
    exact List.sorted_insertionSort _ _
  · exact (List.reverse_perm _).trans (List.perm_insertionSort _ _)
  · simp [processLine, hm, execContent, hsub]

/-- Witness for C8: the emission shape at a concrete line and table. -/
theorem c8_substitution_longest_first_witness :
    processLine (mkEnv [] false true) ppNone "A" 1 "AB"
        ⟨[("AB", .vStr "X"), ("X", .vStr "1")], [⟨Mode.EMIT, false, false⟩], [], [], []⟩
      = .ok ⟨dictSet [("AB", .vStr "X"), ("X", .vStr "1")] "__LINE__" (.vInt 1),
             [⟨Mode.EMIT, false, false⟩],
             [substituteDefines
                (dictSet [("AB", .vStr "X"), ("X", .vStr "1")] "__LINE__" (.vInt 1)) "AB"],
             [], []⟩ :=
  c8_substitution_longest_first.2.2 (mkEnv [] false true) ppNone "A" 1 "AB"
    [("AB", .vStr "X"), ("X", .vStr "1")] false false [] [] [] [] rfl rfl

/-- Counterexample for C8 as stated: with `AB` defined as `X` and `X`
defined as `1`, the engine turns the content line `AB` into `1` - the
`X` produced by the first (longest-name) replacement is rescanned and
replaced by the later symbol - whereas a genuine non-rescanning single
pass (`substituteSinglePass`, modelled from the spec's words) leaves
`X`. -/
theorem c8_rescan_cex :
    resultOut (preprocess (mkEnv [("A", ["AB"])] false true) 1 "A"
        [("AB", .vStr "X"), ("X", .vStr "1")] [] [] []) = some ["1"]
    ∧ substituteSinglePass
        (dictSet (dictSet [("AB", .vStr "X"), ("X", .vStr "1")] "__FILE__" (.vStr "A"))
          "__LINE__" (.vInt 1)) "AB" = "X"
    ∧ (["1"] : List String) ≠ ["X"] :=
  ⟨by decide, by decide, by decide⟩

/-- Claim C9 (corrected): an `#error` directive in a skipped section is
ignored (and contributes only the keep-lines blank); in an emitting
section it fails with a structured error carrying the current
`__FILE__` value and the current line number - but its message is the
argument text prefixed with "#error: ", not exactly the argument text
(see the counterexample). -/
theorem c9_error_directive (env : Env) (pp : PP) (infile : String) (lineNum : Nat)
    (line m : String) (d : Defines) (sts : List BlockState) (out g : List String)
    (lg : List EvalCall)
    (hm : env.matchStmt line = some (.sError m)) :
    (topSkip sts = true →
      processLine env pp infile lineNum line ⟨d, sts, out, g, lg⟩
        = .ok ⟨dictSet d "__LINE__" (.vInt lineNum), sts,
               if env.should_keep_lines then out ++ [""] else out, g, lg⟩)
    ∧ (topSkip sts = false →
      processLine env pp infile lineNum line ⟨d, sts, out, g, lg⟩
        = .error (.errorDirective ("#error: " ++ m)
            (dictGet (dictSet d "__LINE__" (.vInt lineNum)) "__FILE__")
            (some (.vInt lineNum)) line)) := by
  constructor
  · intro h
    simp only [processLine, hm, execStmt, h, Except.map, klWrap, if_pos]
    by_cases hkl : env.should_keep_lines <;> simp [hkl]
  · intro h
    simp [processLine, hm, execStmt, h, Except.map, dictGet_dictSet_self]

/-- Witness for C9: the emitting-side behaviour at a concrete line. -/
theorem c9_error_directive_witness :
    topSkip [⟨Mode.EMIT, false, false⟩] = false
    ∧ processLine (mkEnv [] false false) ppNone "A" 1 "Rboom"
        ⟨[("__FILE__", .vStr "A")], [⟨Mode.EMIT, false, false⟩], [], [], []⟩
      = .error (.errorDirective ("#error: " ++ "boom")
          (dictGet (dictSet [("__FILE__", .vStr "A")] "__LINE__" (.vInt 1)) "__FILE__")
          (some (.vInt 1)) "Rboom") :=
  ⟨rfl,
    (c9_error_directive (mkEnv [] false false) ppNone "A" 1 "Rboom" "boom"
      [("__FILE__", .vStr "A")] [⟨Mode.EMIT, false, false⟩] [] [] [] rfl).2 rfl⟩

/-- Counterexample for C9 as stated: the failure raised for `#error boom`
carries the message "#error: boom", which is not exactly the directive's
argument text "boom". -/
theorem c9_message_prefixed_cex :
    (resultErr (preprocess (mkEnv [("A", ["Rboom"])] false false) 1 "A" [] [] [] [])).map
        PPErr.pyMessage = some "#error: boom"
    ∧ ("#error: boom" : String) ≠ "boom" :=
  ⟨rfl, by decide⟩

/-- Claim C1 (corrected): for an input file none of whose lines is an
`#include`, (i) if the `#if` nesting is balanced (never underflows, depth
zero at end of file) the run never fails with any of the
unterminated-`#if` / superfluous-`#endif` error kinds, and (ii) if the
nesting never underflows but leaves blocks open at end of file, the run
never succeeds.  The original claim's converse - that EVERY unbalanced
file fails - is false: a surplus `#endif` that empties the stack followed
by a fresh `#if` silently rebalances it (see the counterexample). -/
theorem c1_balanced_nesting (env : Env) (fuel : Nat) (infile : String) (d : Defines)
    (out g : List String) (lg : List EvalCall) (lines : List String)
    (h1 : env.os.readLines infile = some lines)
    (h2 : ∀ l ∈ lines, isIncl (env.matchStmt l) = false)
    (hok : depthOkFrom env.matchStmt 0 lines = true) :
    (depthAfter env.matchStmt 0 lines = 0 →
      ∀ e, preprocess env fuel infile d out g lg = .error e → isBalanceErr e = false)
    ∧ (0 < depthAfter env.matchStmt 0 lines →
      resultOk (preprocess env fuel infile d out g lg) = false) := by
  cases fuel with
  | zero =>
      constructor
      · intro _ e he
        simp only [preprocess] at he
        cases he
        rfl
      · intro _
        simp [preprocess, resultOk]
  | succ fuel =>
      have hbal := processLines_balance env (preprocess env fuel) infile lines 0
        ⟨dictSet d "__FILE__" (Value.vStr infile), [⟨Mode.EMIT, false, false⟩],
          out, g ++ [env.os.abspath infile], lg⟩ 0 h2 (by rfl) hok
      constructor
      · intro hz e he
        simp only [preprocess] at he
        split at he
        · cases he; rfl
        · simp only [h1] at he
          rcases hps : processLines env (preprocess env fuel) infile 0 lines
              ⟨dictSet d "__FILE__" (Value.vStr infile), [⟨Mode.EMIT, false, false⟩],
                out, g ++ [env.os.abspath infile], lg⟩ with er | stf
          · simp only [hps] at he
            cases he
            exact hbal.1 _ hps
          · simp only [hps] at he
            have hlen := hbal.2 stf hps
            rw [hz] at hlen
            rw [hlen] at he
            simp at he
      · intro hpos
        simp only [preprocess]
        split
        · rfl
        · rcases hps : processLines env (preprocess env fuel) infile 0 lines
              ⟨dictSet d "__FILE__" (Value.vStr infile), [⟨Mode.EMIT, false, false⟩],
                out, g ++ [env.os.abspath infile], lg⟩ with er | stf
          · simp [h1, hps, resultOk]
          · have hlen := hbal.2 stf hps
            have hgt : stf.states.length > 1 := by omega
            simp [h1, hps, resultOk, if_pos hgt]

/-- Witness for C1: a one-line file consisting of a single `#if T` (open
block at end of file) is rejected. -/
theorem c1_balanced_nesting_witness :
    resultOk (preprocess (mkEnv [("A", ["IT"])] false false) 1 "A" [] [] [] []) = false :=
  (c1_balanced_nesting (mkEnv [("A", ["IT"])] false false) 1 "A" [] [] [] [] ["IT"]
    rfl (by decide) (by decide)).2 (by decide)

/-- Counterexample for C1 as stated: the file `#endif` then `#if T` is
unbalanced (its first `#endif` has no matching `#if`), yet the run
succeeds: the surplus `#endif` pops the sentinel and the following `#if`
pushes the stack back to depth one, so the end-of-input checks pass. -/
theorem c1_unbalanced_ok_cex :
    balancedLines decodeStmt ["F", "IT"] = false
    ∧ resultOk (preprocess (mkEnv [("A", ["F", "IT"])] false false) 1 "A" [] [] [] [])
        = true :=
  ⟨by decide, by decide⟩

/-- Claim C7 (corrected): with `keepLines` enabled, a successful run that
executes no `#include` writes exactly one output line per input line:
every directive line - including an `#include` sitting in a skipped
section, which is ignored - and every skipped content line contributes
one blank line, and every emitted content line contributes one line.
"Executes no `#include`" is captured by the recursion guard: every
executed (and successful) include strictly grows the guard
(`preprocess_strict`), so a successful run whose guard gained only the
input file's own entry (`hg`) executed none.  An executed include
additionally writes the included file's whole processed output before the
directive's blank line, so the equality can fail for runs whose includes
execute (see the counterexample). -/
theorem c7_keep_lines_count (env : Env) (fuel : Nat) (infile : String) (d : Defines)
    (g : List String) (lg : List EvalCall) (lines : List String) (r : PPResult)
    (hkl : env.should_keep_lines = true)
    (h1 : env.os.readLines infile = some lines)
    (hg : r.guard.length = g.length + 1)
    (h : preprocess env fuel infile d [] g lg = .ok r) :
    r.output.length = lines.length := by
  cases fuel with
  | zero => simp [preprocess] at h
  | succ fuel =>
      simp only [preprocess] at h
      split at h
      · cases h
      · simp only [h1] at h
        rcases hps : processLines env (preprocess env fuel) infile 0 lines
            ⟨dictSet d "__FILE__" (Value.vStr infile), [⟨Mode.EMIT, false, false⟩],
              [], g ++ [env.os.abspath infile], lg⟩ with er | stf
        · simp only [hps] at h
          cases h
        · simp only [hps] at h
          split at h
          · cases h
          · split at h
            · cases h
            · cases h
              have hcount := processLines_kl_noexec env (preprocess env fuel) infile
                hkl (preprocess_strict env fuel) (preprocess_inv env fuel) lines 0
                _ stf hps (by simp only [List.length_append, List.length_cons,
                  List.length_nil] at hg ⊢; omega)
              simpa using hcount

/-- Witness for C7: the keep-lines run over `#if F` / `#include "B"` /
`#endif` - the `#include` sits in the skipped branch and is ignored (the
filesystem does not even contain "B") - produces exactly three output
lines for the three input lines, and the guard holds only the input
file. -/
theorem c7_keep_lines_count_witness :
    (["", "", ""] : List String).length = (["IF", "GB", "F"] : List String).length :=
  c7_keep_lines_count (mkEnv [("A", ["IF", "GB", "F"])] true false) 1 "A" [] [] []
    ["IF", "GB", "F"]
    ⟨[("__FILE__", .vStr "A"), ("__LINE__", .vInt 3)], ["", "", ""], ["A"],
      [⟨"F", [("__FILE__", .vStr "A"), ("__LINE__", .vInt 1)], "A", 1⟩]⟩
    rfl rfl rfl rfl

/-- Counterexample for C7 as stated: with `keepLines` enabled, the
one-line file "A" (a single `#include "B"`, where "B" is the one-line file
`x`) produces two output lines - the included file's emitted line plus
the blank for the directive line - not one. -/
theorem c7_include_inflates_cex :
    (resultOut (preprocess (mkEnv [("A", ["GB"]), ("B", ["x"])] true false) 2 "A"
        [] [] [] [])).map List.length = some 2
    ∧ (["GB"] : List String).length = 1
    ∧ (2 : Nat) ≠ 1 :=
  ⟨rfl, rfl, by decide⟩

/-- Claim C5: in a flat `#if`/`#elif`*/`#else` chain whose `#if` condition
is false and whose first true condition is the `#elif` at `etru`, exactly
that branch's body line is emitted: every earlier (false) branch and the
`#if` body emit nothing, and every branch after the taken one - the
trailing `#elif`s in `post` and the `#else` - is skipped outright.  The
oracle is entirely unconstrained on the `post` conditions (it may even
fail on them) and the run still succeeds, so the later `#elif` conditions
are never evaluated at all; at most one branch of the chain emits. -/
theorem c5_at_most_one_branch (env : Env) (pp : PP) (infile : String)
    (lineNum : Nat) (d : Defines) (out g : List String) (lg : List EvalCall)
    (e0 b0 etru btru belse : String) (pre post : List (String × String))
    (hms : env.matchStmt = decodeStmt)
    (hkl : env.should_keep_lines = false)
    (hsub : env.should_substitute = false)
    (hb0 : decodeStmt b0 = none) (hbt : decodeStmt btru = none)
    (hbe : decodeStmt belse = none)
    (hpre2 : ∀ p ∈ pre, decodeStmt p.2 = none)
    (hpost2 : ∀ p ∈ post, decodeStmt p.2 = none)
    (he0 : ∀ dd, ∃ v, env.oracle e0 dd = .ok v ∧ pyTruthy v = false)
    (hpre1 : ∀ p ∈ pre, ∀ dd, ∃ v, env.oracle p.1 dd = .ok v ∧ pyTruthy v = false)
    (het : ∀ dd, ∃ v, env.oracle etru dd = .ok v ∧ pyTruthy v = true) :
    ∃ d' lg', processLines env pp infile lineNum
        (chainLines e0 b0 (pre ++ (etru, btru) :: post) belse)
        ⟨d, [⟨Mode.EMIT, false, false⟩], out, g, lg⟩
      = .ok ⟨d', [⟨Mode.EMIT, false, false⟩], out ++ [btru], g, lg'⟩ := by
  obtain ⟨v0, hv0, hv0f⟩ := he0 (dictSet d "__LINE__" (.vInt ((lineNum + 1 : Nat))))
  simp only [chainLines, List.map_append, List.flatten_append, List.map_cons,
    List.flatten_cons, branchLines, List.cons_append, List.append_assoc,
    List.nil_append]
  rw [processLines_cons_ok env pp infile lineNum _ _ _ _
    (processLine_if_eval_false env pp infile (lineNum + 1) _ e0
      [⟨Mode.EMIT, false, false⟩] d out g lg v0
      (by rw [hms]; exact decodeStmt_mkIfLine e0) rfl hkl hv0 hv0f)]
  rw [processLines_cons_ok env pp infile (lineNum + 1) _ _ _ _
    (processLine_content_skip env pp infile (lineNum + 1 + 1) b0 false false
      [⟨Mode.EMIT, false, false⟩] _ out g _ (by rw [hms]; exact hb0) hkl)]
  obtain ⟨d1, lg1, n1, hpre⟩ := c5_pre_branches env pp infile hms hkl pre
    (mkElifLine etru :: btru ::
      ((post.map branchLines).flatten ++ [mkElseLine, belse, mkEndifLine]))
    (lineNum + 1 + 1)
    (dictSet (dictSet d "__LINE__" (.vInt ((lineNum + 1 : Nat)))) "__LINE__"
      (.vInt ((lineNum + 1 + 1 : Nat))))
    out g
    (lg ++ [⟨e0, dictSet d "__LINE__" (.vInt ((lineNum + 1 : Nat))), infile,
      lineNum + 1⟩])
    false false [] hpre2 hpre1
  rw [hpre]
  obtain ⟨vt, hvt, hvtt⟩ := het (dictSet d1 "__LINE__" (.vInt ((n1 + 1 : Nat))))
  rw [processLines_cons_ok env pp infile n1 _ _ _ _
    (processLine_elif_eval_true env pp infile (n1 + 1) _ etru false false [] d1 out g
      lg1 vt (by rw [hms]; exact decodeStmt_mkElifLine etru) hkl hvt hvtt)]
  rw [processLines_cons_ok env pp infile (n1 + 1) _ _ _ _
    (processLine_content_emit env pp infile (n1 + 1 + 1) btru true false
      [⟨Mode.EMIT, false, false⟩] _ out g _ (by rw [hms]; exact hbt) hsub)]
  obtain ⟨d2, m2, n2, hpost⟩ := c5_skip_branches env pp infile hms hkl post
    [mkElseLine, belse, mkEndifLine] (n1 + 1 + 1)
    (dictSet (dictSet d1 "__LINE__" (.vInt ((n1 + 1 : Nat)))) "__LINE__"
      (.vInt ((n1 + 1 + 1 : Nat))))
    (out ++ [btru]) g
    (lg1 ++ [⟨etru, dictSet d1 "__LINE__" (.vInt ((n1 + 1 : Nat))), infile, n1 + 1⟩])
    Mode.EMIT [⟨Mode.EMIT, false, false⟩] hpost2
  rw [hpost]
  rw [processLines_cons_ok env pp infile n2 _ _ _ _
    (processLine_else_emitted env pp infile (n2 + 1) _ m2 [⟨Mode.EMIT, false, false⟩]
      d2 (out ++ [btru]) g _ (by rw [hms]; exact decodeStmt_mkElseLine) hkl)]
  rw [processLines_cons_ok env pp infile (n2 + 1) _ _ _ _
    (processLine_content_skip env pp infile (n2 + 1 + 1) belse true true
      [⟨Mode.EMIT, false, false⟩] _ (out ++ [btru]) g _
      (by rw [hms]; exact hbe) hkl)]
  rw [processLines_cons_ok env pp infile (n2 + 1 + 1) _ _ _ _
    (processLine_endif_pop env pp infile (n2 + 1 + 1 + 1) _ _ [⟨Mode.EMIT, false, false⟩]
      _ (out ++ [btru]) g _ (by rw [hms]; exact decodeStmt_mkEndifLine) hkl)]
  exact ⟨_, _, rfl⟩

/-- Witness for C5: a concrete chain `#if F` / `xb` / `#elif F` / `xa` /
`#elif T` / `xt` / `#elif Z` / `xz` / `#else` / `xe` / `#endif` with an
oracle that raises on `Z`; only `xt` is emitted and the run succeeds, so
the condition after the taken branch was never evaluated. -/
theorem c5_at_most_one_branch_witness :
    ∃ d' lg', processLines (mkEnv [] false false) ppNone "A" 0
        (chainLines "F" "xb" ([("F", "xa")] ++ ("T", "xt") :: [("Z", "xz")]) "xe")
        ⟨[], [⟨Mode.EMIT, false, false⟩], [], [], []⟩
      = .ok ⟨d', [⟨Mode.EMIT, false, false⟩], [] ++ ["xt"], [], lg'⟩ :=
  c5_at_most_one_branch (mkEnv [] false false) ppNone "A" 0 [] [] [] []
    "F" "xb" "T" "xt" "xe" [("F", "xa")] [("Z", "xz")]
    rfl rfl rfl rfl rfl rfl
    (by intro p hp; simp at hp; subst hp; rfl)
    (by intro p hp; simp at hp; subst hp; rfl)
    (fun dd => ⟨.vBool false, rfl, rfl⟩)
    (by intro p hp dd; simp at hp; subst hp; exact ⟨.vBool false, rfl, rfl⟩)
    (fun dd => ⟨.vBool true, rfl, rfl⟩)

end Pepe
